import Mathlib

/-!
# SBuildr minimal example: `fibonacci`

A shallow embedding of `examples/minimal_project/src/fibonacci.cpp`.

* `int` is modelled as `Int` with explicit two's-complement reduction (`wrap`) after
  every arithmetic operation the function performs (`acc += prev1`, `++i`).
* The `for` loop is modelled by `loop`, which consumes one unit of fuel for every
  evaluation of the loop condition `i <= n`; running out of fuel yields `none`.
* `std::cout` is modelled as the list of records written so far, one record
  `(i, acc, prev2, prev1)` per executed `std::cout << ... << std::endl` statement.
* The preprocessor symbol `S_DEBUG` is a Boolean parameter.
-/

namespace SBuildr

/-- Smallest value of the 32-bit `int` type. -/
def INT_MIN : Int := -2147483648

/-- Largest value of the 32-bit `int` type. -/
def INT_MAX : Int := 2147483647

/-- Two's-complement reduction of a mathematical integer to the 32-bit `int` range. -/
def wrap (x : Int) : Int := (x + 2147483648) % 4294967296 - 2147483648

/-- The local variables of `fibonacci`: the loop counter and the three registers. -/
structure Regs where
  i : Int
  prev2 : Int
  prev1 : Int
  acc : Int
  deriving DecidableEq, Repr

/-- One record written to `std::cout` by the statement under `#ifdef S_DEBUG`,
in the order the values are streamed: `i`, `acc`, `prev2`, `prev1`. -/
structure TraceLine where
  i : Int
  acc : Int
  prev2 : Int
  prev1 : Int
  deriving DecidableEq, Repr

/-- What a returning call leaves behind: the returned `int`, the contents of
`std::cout`, and the number of times the loop body was executed. -/
structure Run where
  ret : Int
  cout : List TraceLine
  iters : Nat
  deriving DecidableEq, Repr

/-- Lines 7-9 and the loop initialiser: `prev2 = 0`, `prev1 = 1`,
`acc = (n == 1) ? 1 : 0`, `i = 2`. -/
def initRegs (n : Int) : Regs :=
  { i := 2, prev2 := 0, prev1 := 1, acc := if n = 1 then 1 else 0 }

/-- The three assignments of the loop body, lines 11-13:
`prev2 = prev1; acc += prev1; prev1 = acc;`. -/
def body (s : Regs) : Regs :=
  let prev2 := s.prev1
  let acc := wrap (s.acc + s.prev1)
  let prev1 := acc
  { i := s.i, prev2 := prev2, prev1 := prev1, acc := acc }

/-- The loop increment `++i`. -/
def advance (s : Regs) : Regs :=
  { s with i := wrap (s.i + 1) }

/-- The record streamed by line 15 from the current registers. -/
def emit (s : Regs) : TraceLine :=
  { i := s.i, acc := s.acc, prev2 := s.prev2, prev1 := s.prev1 }

/-- The text of one output line as line 15 formats it (without the line end). -/
def render (r : TraceLine) : String :=
  "Fib[" ++ toString r.i ++ "] = " ++ toString r.acc ++ ", prev2 = " ++ toString r.prev2
    ++ ", prev1 = " ++ toString r.prev1

/-- The `for` loop of lines 10-17 followed by `return acc`. Each evaluation of the
condition `i <= n` costs one unit of fuel. -/
def loop (S_DEBUG : Bool) (n : Int) : Nat → Regs → List TraceLine → Nat → Option Run
  | 0, _, _, _ => none
  | fuel + 1, s, cout, iters =>
    if s.i ≤ n then
      let s1 := body s
      let cout1 := if S_DEBUG then cout ++ [emit s1] else cout
      loop S_DEBUG n fuel (advance s1) cout1 (iters + 1)
    else
      some { ret := s.acc, cout := cout, iters := iters }

/-- The function `int fibonacci(int n)`, called when `std::cout` holds `cout`. -/
def fibonacci (S_DEBUG : Bool) (fuel : Nat) (n : Int) (cout : List TraceLine) : Option Run :=
  loop S_DEBUG n fuel (initRegs n) cout 0

/-- The Fibonacci sequence of the specification's glossary:
`Fib(0)=0`, `Fib(1)=1`, `Fib(n)=Fib(n-1)+Fib(n-2)` for `n≥2`. -/
def Fib : Nat → Nat
  | 0 => 0
  | 1 => 1
  | k + 2 => Fib (k + 1) + Fib k

/-- One full iteration of the loop: the body followed by `++i`. -/
def iter (s : Regs) : Regs := advance (body s)

/-- The records written by `m` consecutive iterations started in registers `s`. -/
def traceFrom : Regs → Nat → List TraceLine
  | _, 0 => []
  | s, m + 1 => emit (body s) :: traceFrom (iter s) m

/-- How a run under exact (unbounded) integer arithmetic ends: with a returned value, or at
the first operation whose mathematical result is not representable in `int`, which is
reported with the loop index at which it happens. -/
inductive Outcome where
  | value (v : Int)
  | addOverflow (i : Int)
  | incOverflow (i : Int)
  deriving DecidableEq, Repr

/-- Whether a mathematical integer is representable in the 32-bit `int` type. -/
def fits (x : Int) : Bool := decide (INT_MIN ≤ x) && decide (x ≤ INT_MAX)

/-- The `for` loop of lines 10-17 followed by `return acc`, run with exact integer
arithmetic: `acc += prev1` and `++i` are computed without reduction and the run stops at
the first of them whose result leaves the `int` range. -/
def loopExact (n : Int) : Nat → Regs → Option Outcome
  | 0, _ => none
  | fuel + 1, s =>
    if s.i ≤ n then
      let prev2 := s.prev1
      let acc := s.acc + s.prev1
      if fits acc then
        let prev1 := acc
        if fits (s.i + 1) then
          loopExact n fuel { i := s.i + 1, prev2 := prev2, prev1 := prev1, acc := acc }
        else
          some (Outcome.incOverflow s.i)
      else
        some (Outcome.addOverflow s.i)
    else
      some (Outcome.value s.acc)

/-- The function `int fibonacci(int n)` run with exact integer arithmetic. -/
def fibonacciExact (fuel : Nat) (n : Int) : Option Outcome :=
  loopExact n fuel (initRegs n)

/-! ## Arithmetic of `wrap` -/

theorem wrap_id (x : Int) (hlo : INT_MIN ≤ x) (hhi : x ≤ INT_MAX) : wrap x = x := by
  unfold INT_MIN at hlo
  unfold INT_MAX at hhi
  unfold wrap
  omega

theorem wrap_le_max (x : Int) : wrap x ≤ INT_MAX := by
  unfold wrap INT_MAX
  omega

theorem wrap_ge_min (x : Int) : INT_MIN ≤ wrap x := by
  unfold wrap INT_MIN
  omega

/-! ## Running the loop -/

theorem loop_exit (dbg : Bool) (n : Int) (fuel : Nat) (s : Regs) (cout : List TraceLine)
    (k : Nat) (h : n < s.i) :
    loop dbg n (fuel + 1) s cout k = some { ret := s.acc, cout := cout, iters := k } := by
  have hn : ¬ s.i ≤ n := by omega
  simp [loop, hn]

theorem loop_enter (dbg : Bool) (n : Int) (fuel : Nat) (s : Regs) (cout : List TraceLine)
    (k : Nat) (h : s.i ≤ n) :
    loop dbg n (fuel + 1) s cout k
      = loop dbg n fuel (iter s) (if dbg then cout ++ [emit (body s)] else cout) (k + 1) := by
  simp [loop, h, iter]

theorem body_i (s : Regs) : (body s).i = s.i := rfl

theorem iter_i (s : Regs) : (iter s).i = wrap (s.i + 1) := rfl

theorem loop_run (dbg : Bool) (n : Int) (hn : n < INT_MAX) :
    ∀ (m : Nat) (s : Regs) (fuel : Nat) (cout : List TraceLine) (k : Nat),
      s.i + m = n + 1 → INT_MIN ≤ s.i →
      loop dbg n (fuel + m + 1) s cout k
        = some { ret := (iter^[m] s).acc,
                 cout := if dbg then cout ++ traceFrom s m else cout,
                 iters := k + m } := by
  intro m
  induction m with
  | zero =>
    intro s fuel cout k h _
    have hlt : n < s.i := by
      simp at h
      omega
    rw [loop_exit dbg n (fuel + 0) s cout k hlt]
    cases dbg <;> simp [traceFrom]
  | succ m ih =>
    intro s fuel cout k h hlo
    have hle : s.i ≤ n := by
      push_cast at h
      omega
    have hw : wrap (s.i + 1) = s.i + 1 := by
      apply wrap_id
      · omega
      · omega
    have hfuel : fuel + (m + 1) + 1 = (fuel + m + 1) + 1 := by omega
    rw [hfuel, loop_enter dbg n _ s cout k hle]
    have hi : (iter s).i + (m : Int) = n + 1 := by
      rw [iter_i, hw]
      push_cast at h
      omega
    have hlo2 : INT_MIN ≤ (iter s).i := by
      rw [iter_i]
      exact wrap_ge_min _
    rw [ih (iter s) fuel _ (k + 1) hi hlo2, Function.iterate_succ_apply]
    cases dbg <;> simp [traceFrom] <;> omega

theorem loop_never_exits (dbg : Bool) :
    ∀ (fuel : Nat) (s : Regs) (cout : List TraceLine) (k : Nat),
      s.i ≤ INT_MAX → loop dbg INT_MAX fuel s cout k = none := by
  intro fuel
  induction fuel with
  | zero =>
    intro s cout k _
    rfl
  | succ fuel ih =>
    intro s cout k h
    rw [loop_enter dbg INT_MAX fuel s cout k h]
    apply ih
    rw [iter_i]
    exact wrap_le_max _

theorem loop_fuel_succ (dbg : Bool) (n : Int) :
    ∀ (fuel : Nat) (s : Regs) (cout : List TraceLine) (k : Nat) (r : Run),
      loop dbg n fuel s cout k = some r → loop dbg n (fuel + 1) s cout k = some r := by
  intro fuel
  induction fuel with
  | zero =>
    intro s cout k r h
    simp [loop] at h
  | succ fuel ih =>
    intro s cout k r h
    by_cases hle : s.i ≤ n
    · rw [loop_enter dbg n fuel s cout k hle] at h
      rw [loop_enter dbg n (fuel + 1) s cout k hle]
      exact ih _ _ _ r h
    · have hlt : n < s.i := by omega
      rw [loop_exit dbg n fuel s cout k hlt] at h
      rw [loop_exit dbg n (fuel + 1) s cout k hlt]
      exact h

theorem loop_fuel_add (dbg : Bool) (n : Int) (fuel : Nat) (s : Regs) (cout : List TraceLine)
    (k : Nat) (r : Run) (h : loop dbg n fuel s cout k = some r) :
    ∀ extra : Nat, loop dbg n (fuel + extra) s cout k = some r := by
  intro extra
  induction extra with
  | zero => exact h
  | succ e ih => exact loop_fuel_succ dbg n (fuel + e) s cout k r ih

theorem loop_ret_indep (d1 d2 : Bool) (n : Int) :
    ∀ (fuel : Nat) (s : Regs) (c1 c2 : List TraceLine) (k1 k2 : Nat),
      (loop d1 n fuel s c1 k1).map Run.ret = (loop d2 n fuel s c2 k2).map Run.ret := by
  intro fuel
  induction fuel with
  | zero =>
    intro s c1 c2 k1 k2
    rfl
  | succ fuel ih =>
    intro s c1 c2 k1 k2
    by_cases hle : s.i ≤ n
    · rw [loop_enter d1 n fuel s c1 k1 hle, loop_enter d2 n fuel s c2 k2 hle]
      exact ih _ _ _ _ _
    · have hlt : n < s.i := by omega
      rw [loop_exit d1 n fuel s c1 k1 hlt, loop_exit d2 n fuel s c2 k2 hlt]
      rfl

/-! ## The trace of consecutive iterations -/

theorem traceFrom_length : ∀ (m : Nat) (s : Regs), (traceFrom s m).length = m := by
  intro m
  induction m with
  | zero =>
    intro s
    rfl
  | succ m ih =>
    intro s
    simp [traceFrom, ih]

theorem traceFrom_get : ∀ (m : Nat) (s : Regs) (k : Nat) (hk : k < (traceFrom s m).length),
    (traceFrom s m).get ⟨k, hk⟩ = emit (body (iter^[k] s)) := by
  intro m
  induction m with
  | zero =>
    intro s k hk
    simp [traceFrom] at hk
  | succ m ih =>
    intro s k hk
    cases k with
    | zero => simp [traceFrom]
    | succ k =>
      simp only [traceFrom, List.get_eq_getElem, List.getElem_cons_succ,
        Function.iterate_succ_apply]
      have hk2 : k < (traceFrom (iter s) m).length := by
        simp only [traceFrom, List.length_cons] at hk
        omega
      have := ih (iter s) k hk2
      simpa using this

theorem iterate_i : ∀ (k : Nat) (s : Regs), INT_MIN ≤ s.i → s.i + k ≤ INT_MAX →
    (iter^[k] s).i = s.i + k := by
  intro k
  induction k with
  | zero =>
    intro s _ _
    simp
  | succ k ih =>
    intro s hlo hhi
    push_cast at hhi
    have hw : wrap (s.i + 1) = s.i + 1 := by
      apply wrap_id
      · omega
      · omega
    have hlo2 : INT_MIN ≤ (iter s).i := by
      rw [iter_i]
      exact wrap_ge_min _
    have hhi2 : (iter s).i + (k : Int) ≤ INT_MAX := by
      rw [iter_i, hw]
      omega
    rw [Function.iterate_succ_apply, ih (iter s) hlo2 hhi2, iter_i, hw]
    push_cast
    omega

/-! ## Returning calls -/

theorem fibonacci_small (dbg : Bool) (fuel : Nat) (n : Int) (cout : List TraceLine)
    (h : n < 2) :
    fibonacci dbg (fuel + 1) n cout
      = some { ret := (initRegs n).acc, cout := cout, iters := 0 } :=
  loop_exit dbg n fuel (initRegs n) cout 0 h

theorem fibonacci_returns (dbg : Bool) (fuel : Nat) (n : Int) (cout : List TraceLine)
    (hhi : n < INT_MAX) :
    fibonacci dbg (fuel + (n - 1).toNat + 1) n cout
      = some { ret := (iter^[(n - 1).toNat] (initRegs n)).acc,
               cout := if dbg then cout ++ traceFrom (initRegs n) (n - 1).toNat else cout,
               iters := (n - 1).toNat } := by
  by_cases h2 : n < 2
  · have hm : (n - 1).toNat = 0 := by omega
    rw [hm, fibonacci_small dbg (fuel + 0) n cout h2]
    cases dbg <;> simp [traceFrom]
  · have hi : (initRegs n).i + (((n - 1).toNat : Nat) : Int) = n + 1 := by
      show (2 : Int) + _ = _
      omega
    have hlo : INT_MIN ≤ (initRegs n).i := by
      show INT_MIN ≤ (2 : Int)
      decide
    have := loop_run dbg n hhi (n - 1).toNat (initRegs n) fuel cout 0 hi hlo
    simpa [fibonacci] using this

theorem fibonacci_ret (dbg : Bool) (fuel : Nat) (n : Int) (cout : List TraceLine)
    (hhi : n < INT_MAX) (m : Nat) (hm : (n - 1).toNat = m) (v : Int)
    (hv : (iter^[m] (initRegs n)).acc = v) :
    (fibonacci dbg (fuel + m + 1) n cout).map Run.ret = some v := by
  subst hm
  rw [fibonacci_returns dbg fuel n cout hhi, ← hv]
  rfl

/-! ## Values of the function -/

/-- Claim C1: `fibonacci(n)` should equal `Fib(n)` for every `n ≥ 0`. The code departs from
this at `n = 4`: every call that is given enough fuel returns `4`, whereas `Fib(4) = 3`
(and `3` fits in `int`, so no wraparound is involved). -/
theorem fibonacci_four_is_not_Fib :
    (∀ (S_DEBUG : Bool) (fuel : Nat) (cout : List TraceLine),
      (fibonacci S_DEBUG (fuel + 4) 4 cout).map Run.ret = some 4)
    ∧ Fib 4 = 3 ∧ wrap (Fib 4) = 3 := by
  refine ⟨?_, by decide, by decide⟩
  intro dbg fuel cout
  exact fibonacci_ret dbg fuel 4 cout (by decide) 3 (by decide) 4 (by decide)

/-- Claim C2: the recurrence `fibonacci(n) == fibonacci(n-1) + fibonacci(n-2)` should hold
for every `n ≥ 2`. The base cases hold, but at `n = 4` the code returns `4` while
`fibonacci(3) + fibonacci(2) = 2 + 1 = 3`. -/
theorem fibonacci_recurrence_fails_at_four :
    ∀ (S_DEBUG : Bool) (fuel : Nat) (cout : List TraceLine),
      (fibonacci S_DEBUG (fuel + 4) 4 cout).map Run.ret = some 4
      ∧ (fibonacci S_DEBUG (fuel + 3) 3 cout).map Run.ret = some 2
      ∧ (fibonacci S_DEBUG (fuel + 2) 2 cout).map Run.ret = some 1
      ∧ (fibonacci S_DEBUG (fuel + 1) 1 cout).map Run.ret = some 1
      ∧ (fibonacci S_DEBUG (fuel + 1) 0 cout).map Run.ret = some 0
      ∧ wrap (2 + 1) ≠ 4 := by
  intro dbg fuel cout
  refine ⟨fibonacci_ret dbg fuel 4 cout (by decide) 3 (by decide) 4 (by decide),
    fibonacci_ret dbg fuel 3 cout (by decide) 2 (by decide) 2 (by decide),
    fibonacci_ret dbg fuel 2 cout (by decide) 1 (by decide) 1 (by decide),
    fibonacci_ret dbg fuel 1 cout (by decide) 0 (by decide) 1 (by decide),
    fibonacci_ret dbg fuel 0 cout (by decide) 0 (by decide) 0 (by decide), by decide⟩

set_option maxRecDepth 100000 in
/-- Claim C3: `fibonacci(10)` should return 55 and `fibonacci(20)` should return 6765.
The code returns 256 and 262144. -/
theorem fibonacci_ten_and_twenty :
    (∀ (S_DEBUG : Bool) (fuel : Nat) (cout : List TraceLine),
      (fibonacci S_DEBUG (fuel + 10) 10 cout).map Run.ret = some 256
      ∧ (fibonacci S_DEBUG (fuel + 20) 20 cout).map Run.ret = some 262144)
    ∧ Fib 10 = 55 ∧ Fib 20 = 6765 := by
  refine ⟨?_, by decide, by decide⟩
  intro dbg fuel cout
  exact ⟨fibonacci_ret dbg fuel 10 cout (by decide) 9 (by decide) 256 (by decide),
    fibonacci_ret dbg fuel 20 cout (by decide) 19 (by decide) 262144 (by decide)⟩

/-- Claim C4: `fibonacci(0)` returns 0 and `fibonacci(1)` returns 1, in both cases with zero
executions of the loop body, nothing written, and the result being the initial value of
`acc`; and `fibonacci(2)` returns 1. -/
theorem fibonacci_small_cases (S_DEBUG : Bool) (fuel : Nat) (cout : List TraceLine) :
    fibonacci S_DEBUG (fuel + 1) 0 cout = some { ret := 0, cout := cout, iters := 0 }
    ∧ fibonacci S_DEBUG (fuel + 1) 1 cout = some { ret := 1, cout := cout, iters := 0 }
    ∧ (initRegs 0).acc = 0 ∧ (initRegs 1).acc = 1
    ∧ (fibonacci S_DEBUG (fuel + 2) 2 cout).map Run.ret = some 1 := by
  exact ⟨fibonacci_small S_DEBUG fuel 0 cout (by decide),
    fibonacci_small S_DEBUG fuel 1 cout (by decide), rfl, rfl,
    fibonacci_ret S_DEBUG fuel 2 cout (by decide) 1 (by decide) 1 (by decide)⟩

/-- Claim C5: for every `n < 0` the call returns 0 normally, the loop body is executed
zero times and nothing is written. -/
theorem fibonacci_negative (S_DEBUG : Bool) (fuel : Nat) (n : Int) (cout : List TraceLine)
    (h : n < 0) :
    fibonacci S_DEBUG (fuel + 1) n cout = some { ret := 0, cout := cout, iters := 0 } := by
  have hacc : (initRegs n).acc = 0 := by
    have hne : n ≠ 1 := by omega
    simp [initRegs, hne]
  rw [fibonacci_small S_DEBUG fuel n cout (by omega), hacc]

/-- Claim C5 at `n = -5` with the trace enabled. -/
theorem fibonacci_negative_witness :
    (-5 : Int) < 0 ∧ fibonacci true 1 (-5) [] = some { ret := 0, cout := [], iters := 0 } :=
  ⟨by decide, fibonacci_negative true 0 (-5) [] (by decide)⟩

/-! ## Termination -/

/-- Claim C6 as stated fails at `n = INT_MAX`: with wraparound on `++i` the condition
`i <= n` holds for every value of `i`, so no amount of fuel lets the call return. -/
theorem fibonacci_INT_MAX_never_returns :
    INT_MAX = 2147483647 ∧
    ∀ (S_DEBUG : Bool) (fuel : Nat) (cout : List TraceLine),
      fibonacci S_DEBUG fuel INT_MAX cout = none := by
  refine ⟨rfl, ?_⟩
  intro dbg fuel cout
  exact loop_never_exits dbg fuel (initRegs INT_MAX) cout 0 (by decide)

/-- Claim C6, amended: for every 32-bit `n` below `INT_MAX` the call returns, after exactly
`max(0, n-1)` executions of the loop body, a number bounded by the magnitude of `n`. -/
theorem fibonacci_terminates (S_DEBUG : Bool) (n : Int) (_hlo : INT_MIN ≤ n)
    (hhi : n < INT_MAX) (fuel : Nat) (hfuel : (n - 1).toNat < fuel) (cout : List TraceLine) :
    ∃ r : Run, fibonacci S_DEBUG fuel n cout = some r
      ∧ r.iters = (n - 1).toNat ∧ r.iters ≤ n.natAbs := by
  obtain ⟨extra, rfl⟩ : ∃ extra, fuel = extra + (n - 1).toNat + 1 :=
    ⟨fuel - (n - 1).toNat - 1, by omega⟩
  refine ⟨_, fibonacci_returns S_DEBUG extra n cout hhi, rfl, ?_⟩
  show (n - 1).toNat ≤ n.natAbs
  omega

/-- Claim C6 (amended) at `n = 3` with four units of fuel. -/
theorem fibonacci_terminates_witness :
    ∃ r : Run, fibonacci false 4 3 [] = some r
      ∧ r.iters = ((3 : Int) - 1).toNat ∧ r.iters ≤ (3 : Int).natAbs :=
  fibonacci_terminates false 3 (by decide) (by decide) 4 (by decide) []

/-! ## The debug trace -/

/-- Claim C7: with `S_DEBUG` defined and `n = 3`, starting from an empty stream, exactly two
records are written, which render as `Fib[2] = 1, prev2 = 1, prev1 = 1` and
`Fib[3] = 2, prev2 = 1, prev1 = 2`, in this order. -/
theorem trace_of_three (fuel : Nat) :
    ∃ r : Run, fibonacci true (fuel + 3) 3 [] = some r
      ∧ r.cout = [⟨2, 1, 1, 1⟩, ⟨3, 2, 1, 2⟩]
      ∧ r.cout.map render
          = ["Fib[2] = 1, prev2 = 1, prev1 = 1", "Fib[3] = 2, prev2 = 1, prev1 = 2"] := by
  have h := fibonacci_returns true fuel 3 [] (by decide)
  have hm : ((3 : Int) - 1).toNat = 2 := by decide
  rw [hm] at h
  refine ⟨_, h, by decide, by decide⟩

/-- Claim C8: with `S_DEBUG` defined and `n` a 32-bit value below `INT_MAX`, the call appends
to the stream exactly one record per index `2..n` in increasing order (`n-1` records when
`n ≥ 2`, none when `n < 2`), and the record with index `i = 2 + k` shows the registers as
they are after the three assignments of that iteration. -/
theorem trace_one_line_per_index (n : Int) (_hlo : INT_MIN ≤ n) (hhi : n < INT_MAX)
    (fuel : Nat) (hfuel : (n - 1).toNat < fuel) (cout : List TraceLine) :
    ∃ (r : Run) (lines : List TraceLine),
      fibonacci true fuel n cout = some r ∧ r.cout = cout ++ lines
      ∧ lines.length = (n - 1).toNat
      ∧ (2 ≤ n → (lines.length : Int) = n - 1)
      ∧ (n < 2 → lines = [])
      ∧ lines.map TraceLine.i = (List.range (n - 1).toNat).map (fun k : Nat => (2 : Int) + (k : Int))
      ∧ ∀ (k : Nat) (hk : k < lines.length),
          (iter^[k] (initRegs n)).i = 2 + k
          ∧ lines.get ⟨k, hk⟩ = emit (body (iter^[k] (initRegs n))) := by
  obtain ⟨extra, rfl⟩ : ∃ extra, fuel = extra + (n - 1).toNat + 1 :=
    ⟨fuel - (n - 1).toNat - 1, by omega⟩
  have hlen := traceFrom_length (n - 1).toNat (initRegs n)
  have hidx : ∀ k : Nat, k < (n - 1).toNat → (iter^[k] (initRegs n)).i = 2 + k := by
    intro k hk
    have hmax : INT_MAX = 2147483647 := rfl
    have h2 : INT_MIN ≤ (initRegs n).i := by
      show INT_MIN ≤ (2 : Int)
      decide
    have hle : (initRegs n).i + (k : Int) ≤ INT_MAX := by
      show (2 : Int) + (k : Int) ≤ INT_MAX
      omega
    exact iterate_i k (initRegs n) h2 hle
  refine ⟨_, traceFrom (initRegs n) (n - 1).toNat,
    fibonacci_returns true extra n cout hhi, by simp, hlen, ?_, ?_, ?_, ?_⟩
  · intro h2
    rw [hlen]
    omega
  · intro h2
    have hm : (n - 1).toNat = 0 := by omega
    rw [hm]
    rfl
  · apply List.ext_getElem
    · rw [List.length_map, List.length_map, List.length_range, hlen]
    · intro k h1 h2
      have hk : k < (n - 1).toNat := by
        rw [List.length_map, hlen] at h1
        exact h1
      have hk1 : k < (traceFrom (initRegs n) (n - 1).toNat).length := by
        rw [hlen]
        exact hk
      have hget := traceFrom_get (n - 1).toNat (initRegs n) k hk1
      rw [List.get_eq_getElem] at hget
      rw [List.getElem_map, List.getElem_map, List.getElem_range, hget]
      show (body (iter^[k] (initRegs n))).i = 2 + (k : Int)
      rw [body_i, hidx k hk]
  · intro k hk
    exact ⟨hidx k (by rw [← hlen]; exact hk), traceFrom_get _ _ k hk⟩

/-- Claim C8 at `n = 3` with four units of fuel and an empty stream. -/
theorem trace_one_line_per_index_witness :
    ∃ (r : Run) (lines : List TraceLine),
      fibonacci true 4 3 [] = some r ∧ r.cout = [] ++ lines
      ∧ lines.length = ((3 : Int) - 1).toNat
      ∧ ((2 : Int) ≤ 3 → (lines.length : Int) = 3 - 1)
      ∧ ((3 : Int) < 2 → lines = [])
      ∧ lines.map TraceLine.i
          = (List.range ((3 : Int) - 1).toNat).map (fun k : Nat => (2 : Int) + (k : Int))
      ∧ ∀ (k : Nat) (hk : k < lines.length),
          (iter^[k] (initRegs 3)).i = 2 + k
          ∧ lines.get ⟨k, hk⟩ = emit (body (iter^[k] (initRegs 3))) :=
  trace_one_line_per_index 3 (by decide) (by decide) 4 (by decide) []

/-! ## Determinism -/

/-- Claim C9: the returned value depends on `n` only. Whatever the stream held before the
call, and however much fuel the two runs are given, two returning calls with the same `n`
return the same value; with equal fuel both return or neither does; and below `INT_MAX`
there is one value that every call with enough fuel returns. -/
theorem fibonacci_deterministic (S_DEBUG : Bool) (n : Int) :
    (∀ (fuel1 fuel2 : Nat) (cout1 cout2 : List TraceLine) (r1 r2 : Run),
      fibonacci S_DEBUG fuel1 n cout1 = some r1 → fibonacci S_DEBUG fuel2 n cout2 = some r2 →
      r1.ret = r2.ret)
    ∧ (∀ (fuel : Nat) (cout1 cout2 : List TraceLine),
      (fibonacci S_DEBUG fuel n cout1).map Run.ret
        = (fibonacci S_DEBUG fuel n cout2).map Run.ret)
    ∧ (n < INT_MAX → ∃ v : Int, ∀ (fuel : Nat) (cout : List TraceLine),
      (n - 1).toNat < fuel → (fibonacci S_DEBUG fuel n cout).map Run.ret = some v) := by
  refine ⟨?_, ?_, ?_⟩
  · intro fuel1 fuel2 cout1 cout2 r1 r2 h1 h2
    have e1 := loop_fuel_add S_DEBUG n fuel1 (initRegs n) cout1 0 r1 h1 fuel2
    have e2 := loop_fuel_add S_DEBUG n fuel2 (initRegs n) cout2 0 r2 h2 fuel1
    rw [Nat.add_comm fuel2 fuel1] at e2
    have e := loop_ret_indep S_DEBUG S_DEBUG n (fuel1 + fuel2) (initRegs n) cout1 cout2 0 0
    rw [e1, e2] at e
    simpa using e
  · intro fuel cout1 cout2
    exact loop_ret_indep S_DEBUG S_DEBUG n fuel (initRegs n) cout1 cout2 0 0
  · intro hhi
    refine ⟨(iter^[(n - 1).toNat] (initRegs n)).acc, ?_⟩
    intro fuel cout hfuel
    obtain ⟨extra, rfl⟩ : ∃ extra, fuel = extra + (n - 1).toNat + 1 :=
      ⟨fuel - (n - 1).toNat - 1, by omega⟩
    rw [fibonacci_returns S_DEBUG extra n cout hhi]
    rfl

/-- Claim C9 at `n = 5`: a call on an empty stream with 6 units of fuel and a call on a
non-empty stream with 9 units of fuel both return 8. -/
theorem fibonacci_deterministic_witness :
    fibonacci true 6 5 []
        = some ⟨8, [⟨2, 1, 1, 1⟩, ⟨3, 2, 1, 2⟩, ⟨4, 4, 2, 4⟩, ⟨5, 8, 4, 8⟩], 4⟩
    ∧ fibonacci true 9 5 [⟨2, 1, 1, 1⟩]
        = some ⟨8, [⟨2, 1, 1, 1⟩, ⟨2, 1, 1, 1⟩, ⟨3, 2, 1, 2⟩, ⟨4, 4, 2, 4⟩, ⟨5, 8, 4, 8⟩], 4⟩
    ∧ (Run.mk 8 [⟨2, 1, 1, 1⟩, ⟨3, 2, 1, 2⟩, ⟨4, 4, 2, 4⟩, ⟨5, 8, 4, 8⟩] 4).ret
        = (Run.mk 8 [⟨2, 1, 1, 1⟩, ⟨2, 1, 1, 1⟩, ⟨3, 2, 1, 2⟩, ⟨4, 4, 2, 4⟩, ⟨5, 8, 4, 8⟩]
            4).ret :=
  ⟨by decide, by decide,
    (fibonacci_deterministic true 5).1 6 9 [] [⟨2, 1, 1, 1⟩] _ _ (by decide) (by decide)⟩

/-! ## The loop invariant -/

/-- Claim C10: after the loop has processed index `i`, `acc` and `prev1` should equal
`Fib(i)`, and `prev1` should hold `Fib(i-1)` at the start of iteration `i`. For `n = 5` the
registers after index 4 hold `acc = prev1 = 4` whereas `Fib(4) = 3`, as the trace shows,
and iteration 5 accordingly starts with `prev1 = 4`. -/
theorem invariant_fails_at_four :
    fibonacci true 6 5 []
        = some { ret := 8,
                 cout := [⟨2, 1, 1, 1⟩, ⟨3, 2, 1, 2⟩, ⟨4, 4, 2, 4⟩, ⟨5, 8, 4, 8⟩],
                 iters := 4 }
    ∧ body (iter^[2] (initRegs 5)) = { i := 4, prev2 := 2, prev1 := 4, acc := 4 }
    ∧ iter^[3] (initRegs 5) = { i := 5, prev2 := 2, prev1 := 4, acc := 4 }
    ∧ Fib 4 = 3 := by
  refine ⟨by decide, by decide, by decide, by decide⟩

/-! ## The closed form of the loop -/

theorem wrap_add_wrap (a b : Int) : wrap (wrap a + wrap b) = wrap (a + b) := by
  unfold wrap
  omega

theorem wrap_small_pow (k : Nat) (hk : k ≤ 30) : wrap ((2 : Int) ^ k) = (2 : Int) ^ k := by
  have hle : (2 : Int) ^ k ≤ (2 : Int) ^ 30 := by
    exact_mod_cast Nat.pow_le_pow_right (by decide) hk
  have hpos : (0 : Int) < (2 : Int) ^ k := by positivity
  norm_num at hle
  apply wrap_id
  · unfold INT_MIN
    omega
  · unfold INT_MAX
    omega

theorem wrap_large_pow (k : Nat) (hk : 32 ≤ k) : wrap ((2 : Int) ^ k) = 0 := by
  obtain ⟨j, rfl⟩ : ∃ j, k = 32 + j := ⟨k - 32, by omega⟩
  have hsplit : (2 : Int) ^ (32 + j) = 4294967296 * (2 : Int) ^ j := by
    rw [pow_add]
    norm_num
  rw [hsplit]
  generalize (2 : Int) ^ j = y
  unfold wrap
  omega

theorem iterate_doubles (n : Int) (hn : n ≠ 1) :
    ∀ k : Nat, (iter^[k + 1] (initRegs n)).acc = wrap ((2 : Int) ^ k)
      ∧ (iter^[k + 1] (initRegs n)).prev1 = wrap ((2 : Int) ^ k) := by
  intro k
  induction k with
  | zero =>
    simp [iter, advance, body, initRegs, hn]
  | succ k ih =>
    rw [Function.iterate_succ_apply']
    have hstep : wrap (wrap ((2 : Int) ^ k) + wrap ((2 : Int) ^ k)) = wrap ((2 : Int) ^ (k + 1)) := by
      rw [wrap_add_wrap, pow_succ]
      congr 1
      ring
    have hacc : (iter (iter^[k + 1] (initRegs n))).acc = wrap ((2 : Int) ^ (k + 1)) := by
      show wrap ((iter^[k + 1] (initRegs n)).acc + (iter^[k + 1] (initRegs n)).prev1) = _
      rw [ih.1, ih.2, hstep]
    exact ⟨hacc, hacc⟩

/-- Claim C11: for `2 ≤ n < INT_MAX` the call returns `2^(n-2)` reduced to a signed 32-bit
value: exactly `2^(n-2)` for `n ≤ 32`, `-2147483648` for `n = 33`, and `0` for `n ≥ 34`. -/
theorem fibonacci_closed_form (S_DEBUG : Bool) (n : Int) (h2 : 2 ≤ n) (hhi : n < INT_MAX)
    (fuel : Nat) (hfuel : (n - 1).toNat < fuel) (cout : List TraceLine) :
    (fibonacci S_DEBUG fuel n cout).map Run.ret = some (wrap ((2 : Int) ^ (n - 2).toNat))
    ∧ (n ≤ 32 → (fibonacci S_DEBUG fuel n cout).map Run.ret = some ((2 : Int) ^ (n - 2).toNat))
    ∧ (n = 33 → (fibonacci S_DEBUG fuel n cout).map Run.ret = some (-2147483648))
    ∧ (34 ≤ n → (fibonacci S_DEBUG fuel n cout).map Run.ret = some 0) := by
  obtain ⟨extra, rfl⟩ : ∃ extra, fuel = extra + (n - 1).toNat + 1 :=
    ⟨fuel - (n - 1).toNat - 1, by omega⟩
  have hm : (n - 1).toNat = (n - 2).toNat + 1 := by omega
  have hne : n ≠ 1 := by omega
  have hv : (iter^[(n - 1).toNat] (initRegs n)).acc = wrap ((2 : Int) ^ (n - 2).toNat) := by
    rw [hm]
    exact (iterate_doubles n hne (n - 2).toNat).1
  have hret := fibonacci_ret S_DEBUG extra n cout hhi (n - 1).toNat rfl _ hv
  refine ⟨hret, ?_, ?_, ?_⟩
  · intro h32
    rw [hret, wrap_small_pow (n - 2).toNat (by omega)]
  · intro h33
    rw [hret]
    subst h33
    decide
  · intro h34
    rw [hret, wrap_large_pow (n - 2).toNat (by omega)]

/-- Claim C11 at `n = 10` with ten units of fuel: the call returns `2^8 = 256`. -/
theorem fibonacci_closed_form_witness :
    (fibonacci false 10 10 []).map Run.ret = some (wrap ((2 : Int) ^ ((10 : Int) - 2).toNat))
    ∧ ((10 : Int) ≤ 32 →
        (fibonacci false 10 10 []).map Run.ret = some ((2 : Int) ^ ((10 : Int) - 2).toNat))
    ∧ ((10 : Int) = 33 → (fibonacci false 10 10 []).map Run.ret = some (-2147483648))
    ∧ ((34 : Int) ≤ 10 → (fibonacci false 10 10 []).map Run.ret = some 0) :=
  fibonacci_closed_form false 10 (by decide) (by decide) 10 (by decide) []

/-! ## Exact arithmetic and overflow -/

theorem fits_iff (x : Int) : fits x = true ↔ INT_MIN ≤ x ∧ x ≤ INT_MAX := by
  simp [fits]

theorem loopExact_value_agrees (dbg : Bool) (n : Int) :
    ∀ (fuel : Nat) (s : Regs) (cout : List TraceLine) (k : Nat) (v : Int),
      loopExact n fuel s = some (Outcome.value v) →
      (loop dbg n fuel s cout k).map Run.ret = some v := by
  intro fuel
  induction fuel with
  | zero =>
    intro s cout k v h
    simp [loopExact] at h
  | succ fuel ih =>
    intro s cout k v h
    by_cases hle : s.i ≤ n
    · by_cases hadd : fits (s.acc + s.prev1) = true
      · by_cases hinc : fits (s.i + 1) = true
        · simp only [loopExact, hle, hadd, hinc, if_true] at h
          have ha := (fits_iff _).1 hadd
          have hi := (fits_iff _).1 hinc
          have hiter : iter s
              = Regs.mk (s.i + 1) s.prev1 (s.acc + s.prev1) (s.acc + s.prev1) := by
            simp [iter, advance, body, wrap_id _ ha.1 ha.2, wrap_id _ hi.1 hi.2]
          rw [loop_enter dbg n fuel s cout k hle, hiter]
          exact ih _ _ _ v h
        · simp [loopExact, hle, hadd, hinc] at h
      · simp [loopExact, hle, hadd] at h
    · have hlt : n < s.i := by omega
      simp only [loopExact, hle, if_false, Option.some.injEq, Outcome.value.injEq] at h
      rw [loop_exit dbg n fuel s cout k hlt, ← h]
      rfl

theorem loopExact_fuel_succ (n : Int) :
    ∀ (fuel : Nat) (s : Regs) (o : Outcome),
      loopExact n fuel s = some o → loopExact n (fuel + 1) s = some o := by
  intro fuel
  induction fuel with
  | zero =>
    intro s o h
    simp [loopExact] at h
  | succ fuel ih =>
    intro s o h
    by_cases hle : s.i ≤ n
    · by_cases hadd : fits (s.acc + s.prev1) = true
      · by_cases hinc : fits (s.i + 1) = true
        · simp only [loopExact, hle, hadd, hinc, if_true] at h
          have hnext := ih _ o h
          simp only [loopExact, hle, hadd, hinc, if_true] at hnext
          simp only [loopExact, hle, hadd, hinc, if_true]
          exact hnext
        · simp only [loopExact, hle, hadd, hinc, if_true, if_false] at h
          simp only [loopExact, hle, hadd, hinc, if_true, if_false]
          exact h
      · simp only [loopExact, hle, hadd, if_true, if_false] at h
        simp only [loopExact, hle, hadd, if_true, if_false]
        exact h
    · simp only [loopExact, hle, if_false] at h
      simp only [loopExact, hle, if_false]
      exact h

theorem loopExact_fuel_add (n : Int) (fuel : Nat) (s : Regs) (o : Outcome)
    (h : loopExact n fuel s = some o) :
    ∀ extra : Nat, loopExact n (fuel + extra) s = some o := by
  intro extra
  induction extra with
  | zero => exact h
  | succ e ih => exact loopExact_fuel_succ n (fuel + e) s o ih

theorem loopExact_overflow_mono (n n2 : Int) (hn : n ≤ n2) (j : Int) :
    ∀ (fuel : Nat) (s : Regs),
      loopExact n fuel s = some (Outcome.addOverflow j) →
      loopExact n2 fuel s = some (Outcome.addOverflow j) := by
  intro fuel
  induction fuel with
  | zero =>
    intro s h
    simp [loopExact] at h
  | succ fuel ih =>
    intro s h
    by_cases hle : s.i ≤ n
    · have hle2 : s.i ≤ n2 := by omega
      by_cases hadd : fits (s.acc + s.prev1) = true
      · by_cases hinc : fits (s.i + 1) = true
        · simp only [loopExact, hle, hadd, hinc, if_true] at h
          simp only [loopExact, hle2, hadd, hinc, if_true]
          exact ih _ h
        · simp [loopExact, hle, hadd, hinc] at h
      · simp only [loopExact, hle, hadd, if_true] at h
        simp only [loopExact, hle2, hadd, if_true]
        exact h
    · simp [loopExact, hle] at h

theorem pow_two_bounds (k : Nat) (hk : k ≤ 30) :
    (0 : Int) < (2 : Int) ^ k ∧ (2 : Int) ^ k ≤ 1073741824 := by
  have hle : (2 : Int) ^ k ≤ (2 : Int) ^ 30 := by
    exact_mod_cast Nat.pow_le_pow_right (by decide) hk
  have hpos : (0 : Int) < (2 : Int) ^ k := by positivity
  norm_num at hle
  exact ⟨hpos, hle⟩

theorem loopExact_enter (n : Int) (fuel : Nat) (s : Regs) (hle : s.i ≤ n)
    (hadd : fits (s.acc + s.prev1) = true) (hinc : fits (s.i + 1) = true) :
    loopExact n (fuel + 1) s
      = loopExact n fuel (Regs.mk (s.i + 1) s.prev1 (s.acc + s.prev1) (s.acc + s.prev1)) := by
  simp only [loopExact, hle, hadd, hinc, if_true]

theorem loopExact_exit (n : Int) (fuel : Nat) (s : Regs) (h : n < s.i) :
    loopExact n (fuel + 1) s = some (Outcome.value s.acc) := by
  have hn : ¬ s.i ≤ n := by omega
  simp only [loopExact, hn, if_false]

theorem loopExact_addOverflow (n : Int) (fuel : Nat) (s : Regs) (hle : s.i ≤ n)
    (hadd : fits (s.acc + s.prev1) = false) :
    loopExact n (fuel + 1) s = some (Outcome.addOverflow s.i) := by
  simp [loopExact, hle, hadd]

theorem loopExact_steps (n : Int) :
    ∀ (m j : Nat) (i p2 : Int) (fuel : Nat),
      j + m ≤ 30 → INT_MIN ≤ i → i + (m : Int) ≤ n + 1 → i + (m : Int) ≤ INT_MAX →
      ∃ q2 : Int, loopExact n (fuel + m) (Regs.mk i p2 ((2 : Int) ^ j) ((2 : Int) ^ j))
        = loopExact n fuel
            (Regs.mk (i + (m : Int)) q2 ((2 : Int) ^ (j + m)) ((2 : Int) ^ (j + m))) := by
  intro m
  induction m with
  | zero =>
    intro j i p2 fuel _ _ _ _
    exact ⟨p2, by simp⟩
  | succ m ih =>
    intro j i p2 fuel hj hlo hle hmax
    push_cast at hle hmax
    have hdouble : (2 : Int) ^ j + (2 : Int) ^ j = (2 : Int) ^ (j + 1) := by
      rw [pow_succ]
      ring
    have hb := pow_two_bounds (j + 1) (by omega)
    have hmaxv : INT_MAX = 2147483647 := rfl
    have hminv : INT_MIN = -2147483648 := rfl
    have hadd : fits ((2 : Int) ^ j + (2 : Int) ^ j) = true := by
      rw [fits_iff, hdouble]
      constructor
      · linarith [hb.1]
      · linarith [hb.2]
    have hinc : fits (i + 1) = true := by
      rw [fits_iff]
      omega
    have step := loopExact_enter n (fuel + m) (Regs.mk i p2 ((2 : Int) ^ j) ((2 : Int) ^ j))
      (by show i ≤ n; omega) hadd hinc
    obtain ⟨q2, hq⟩ := ih (j + 1) (i + 1) ((2 : Int) ^ j) fuel (by omega) (by omega)
      (by omega) (by omega)
    refine ⟨q2, ?_⟩
    have hfuel : fuel + (m + 1) = fuel + m + 1 := rfl
    have hidx : i + ((m + 1 : Nat) : Int) = i + 1 + (m : Int) := by
      push_cast
      ring
    have hexp : j + (m + 1) = j + 1 + m := by omega
    rw [hfuel, step, hidx, hexp]
    show loopExact n (fuel + m)
      (Regs.mk (i + 1) ((2 : Int) ^ j) ((2 : Int) ^ j + (2 : Int) ^ j)
        ((2 : Int) ^ j + (2 : Int) ^ j)) = _
    rw [hdouble]
    exact hq

theorem fibonacciExact_first (n : Int) (fuel : Nat) (h2 : 2 ≤ n) :
    fibonacciExact (fuel + 1) n = loopExact n fuel (Regs.mk 3 1 1 1) := by
  have hne : n ≠ 1 := by omega
  have hinit : initRegs n = Regs.mk 2 0 1 0 := by
    simp [initRegs, hne]
  rw [fibonacciExact, hinit]
  exact loopExact_enter n fuel (Regs.mk 2 0 1 0) h2 (by decide) (by decide)

theorem fibonacciExact_small (n : Int) (h2 : 2 ≤ n) (h32 : n ≤ 32) :
    fibonacciExact ((n - 1).toNat + 1) n = some (Outcome.value ((2 : Int) ^ (n - 2).toNat)) := by
  have hfuel : (n - 1).toNat + 1 = (1 + (n - 2).toNat) + 1 := by omega
  rw [hfuel, fibonacciExact_first n _ h2]
  have hmaxv : INT_MAX = 2147483647 := rfl
  have hminv : INT_MIN = -2147483648 := rfl
  obtain ⟨q2, hq⟩ := loopExact_steps n (n - 2).toNat 0 3 1 1 (by omega) (by omega) (by omega)
    (by omega)
  have hone : (2 : Int) ^ 0 = 1 := by norm_num
  rw [hone, Nat.zero_add] at hq
  rw [hq]
  exact loopExact_exit n 0 _ (by
    show n < (3 : Int) + ((n - 2).toNat : Int)
    omega)

theorem fibonacciExact_thirty_three :
    fibonacciExact 32 33 = some (Outcome.addOverflow 33) := by
  have hmaxv : INT_MAX = 2147483647 := rfl
  have hminv : INT_MIN = -2147483648 := rfl
  obtain ⟨q2, hq⟩ := loopExact_steps 33 30 0 3 1 1 (by omega) (by omega) (by omega) (by omega)
  have hone : (2 : Int) ^ 0 = 1 := by norm_num
  rw [hone] at hq
  have hstart := fibonacciExact_first 33 (1 + 30) (by decide)
  have hfuel : (32 : Nat) = (1 + 30) + 1 := rfl
  rw [hfuel, hstart, hq]
  have hnofit : fits ((2 : Int) ^ (0 + 30) + (2 : Int) ^ (0 + 30)) = false := by
    norm_num [fits, INT_MIN, INT_MAX]
  have hover := loopExact_addOverflow 33 0
    (Regs.mk ((3 : Int) + ((30 : Nat) : Int)) q2 ((2 : Int) ^ (0 + 30)) ((2 : Int) ^ (0 + 30)))
    (by norm_num) hnofit
  rw [hover]
  norm_num

/-- Claim C12: for every 32-bit `n ≤ 32` the run with exact arithmetic meets no operation
whose result leaves the `int` range and returns the same value as the wraparound run;
at `n = 33` the addition `acc += prev1` of iteration 33 overflows, as it does for every
larger `n`, so 33 is the least input with an overflowing addition. -/
theorem overflow_free_up_to_32 :
    (∀ (S_DEBUG : Bool) (n : Int) (fuel : Nat) (cout : List TraceLine),
      INT_MIN ≤ n → n ≤ 32 → (n - 1).toNat < fuel →
      ∃ v : Int, fibonacciExact fuel n = some (Outcome.value v)
        ∧ (fibonacci S_DEBUG fuel n cout).map Run.ret = some v)
    ∧ (∀ fuel : Nat, 32 ≤ fuel → fibonacciExact fuel 33 = some (Outcome.addOverflow 33))
    ∧ (∀ (n : Int) (fuel : Nat), 33 ≤ n → 32 ≤ fuel →
      fibonacciExact fuel n = some (Outcome.addOverflow 33)) := by
  have h33 : ∀ fuel : Nat, 32 ≤ fuel →
      fibonacciExact fuel 33 = some (Outcome.addOverflow 33) := by
    intro fuel hfuel
    obtain ⟨extra, rfl⟩ : ∃ extra, fuel = 32 + extra := ⟨fuel - 32, by omega⟩
    exact loopExact_fuel_add 33 32 (initRegs 33) _ fibonacciExact_thirty_three extra
  refine ⟨?_, h33, ?_⟩
  · intro dbg n fuel cout _ h32 hfuel
    have hex : ∃ v : Int, fibonacciExact fuel n = some (Outcome.value v) := by
      by_cases h2 : n < 2
      · obtain ⟨extra, rfl⟩ : ∃ extra, fuel = extra + 1 := ⟨fuel - 1, by omega⟩
        have hgt : ¬ (initRegs n).i ≤ n := by
          show ¬ (2 : Int) ≤ n
          omega
        exact ⟨(initRegs n).acc, by simp [fibonacciExact, loopExact, hgt]⟩
      · obtain ⟨extra, rfl⟩ : ∃ extra, fuel = (n - 1).toNat + 1 + extra :=
          ⟨fuel - ((n - 1).toNat + 1), by omega⟩
        exact ⟨_, loopExact_fuel_add n _ (initRegs n) _
          (fibonacciExact_small n (by omega) h32) extra⟩
    obtain ⟨v, hv⟩ := hex
    exact ⟨v, hv, loopExact_value_agrees dbg n fuel (initRegs n) cout 0 v hv⟩
  · intro n fuel hn hfuel
    have hinit : initRegs n = initRegs 33 := by
      have h1 : n ≠ 1 := by omega
      simp [initRegs, h1]
    have h := loopExact_overflow_mono 33 n hn 33 fuel (initRegs 33) (h33 fuel hfuel)
    rw [fibonacciExact, hinit]
    exact h

/-- Claim C12 at `n = 32` with 32 units of fuel: exact and wraparound arithmetic agree. -/
theorem overflow_free_up_to_32_witness :
    ∃ v : Int, fibonacciExact 32 32 = some (Outcome.value v)
      ∧ (fibonacci false 32 32 []).map Run.ret = some v :=
  overflow_free_up_to_32.1 false 32 32 [] (by decide) (by decide) (by decide)

/-! ## The debug flag -/

/-- Claim C13: for every 32-bit `n` below `INT_MAX`, the build with `S_DEBUG` defined and
the build with it undefined return the same value after the same number of iterations;
the build without `S_DEBUG` leaves the stream unchanged, the other one appends the trace. -/
theorem debug_flag_changes_only_output (n : Int) (_hlo : INT_MIN ≤ n) (hhi : n < INT_MAX)
    (fuel : Nat) (hfuel : (n - 1).toNat < fuel) (cout : List TraceLine) :
    ∃ rd ru : Run, fibonacci true fuel n cout = some rd
      ∧ fibonacci false fuel n cout = some ru
      ∧ rd.ret = ru.ret ∧ rd.iters = ru.iters
      ∧ ru.cout = cout
      ∧ rd.cout = cout ++ traceFrom (initRegs n) (n - 1).toNat := by
  obtain ⟨extra, rfl⟩ : ∃ extra, fuel = extra + (n - 1).toNat + 1 :=
    ⟨fuel - (n - 1).toNat - 1, by omega⟩
  exact ⟨_, _, fibonacci_returns true extra n cout hhi,
    fibonacci_returns false extra n cout hhi, rfl, rfl, rfl, rfl⟩

/-- Claim C13 at `n = 4` with five units of fuel and an empty stream. -/
theorem debug_flag_changes_only_output_witness :
    ∃ rd ru : Run, fibonacci true 5 4 [] = some rd
      ∧ fibonacci false 5 4 [] = some ru
      ∧ rd.ret = ru.ret ∧ rd.iters = ru.iters
      ∧ ru.cout = []
      ∧ rd.cout = [] ++ traceFrom (initRegs 4) ((4 : Int) - 1).toNat :=
  debug_flag_changes_only_output 4 (by decide) (by decide) 5 (by decide) []

/-! ## The relation between the registers -/

theorem body_prev1_eq_acc (s : Regs) : (body s).prev1 = (body s).acc := rfl

theorem iter_prev1_eq_acc (s : Regs) : (iter s).prev1 = (iter s).acc := rfl

theorem iterate_prev1_eq_acc (s : Regs) (k : Nat) :
    (iter^[k + 1] s).prev1 = (iter^[k + 1] s).acc := by
  rw [Function.iterate_succ_apply']
  exact iter_prev1_eq_acc _

theorem body_doubles (s : Regs) (h : s.prev1 = s.acc) :
    (body s).prev2 = s.acc ∧ (body s).acc = wrap (2 * s.acc) := by
  constructor
  · exact h
  · show wrap (s.acc + s.prev1) = wrap (2 * s.acc)
    rw [h]
    congr 1
    ring

theorem index_ge_three (n : Int) (k : Nat) (h : 3 ≤ (iter^[k] (initRegs n)).i) :
    ∃ j : Nat, k = j + 1 := by
  cases k with
  | zero =>
    exfalso
    have h2 : (3 : Int) ≤ 2 := h
    omega
  | succ j => exact ⟨j, rfl⟩

theorem traceFrom_mem (m : Nat) (s : Regs) (t : TraceLine) (h : t ∈ traceFrom s m) :
    ∃ k : Nat, k < m ∧ t = emit (body (iter^[k] s)) := by
  obtain ⟨idx, hidx⟩ := List.mem_iff_get.1 h
  have hlt : idx.val < m :=
    Nat.lt_of_lt_of_eq idx.isLt (traceFrom_length m s)
  refine ⟨idx.val, hlt, ?_⟩
  rw [← hidx]
  exact traceFrom_get m s idx.val idx.isLt

/-- Claim C14: after every completed iteration `prev1 == acc`; in every iteration whose
index is at least 3, `prev2` receives the value `acc` had before the iteration and the new
`acc` is twice that value in wraparound arithmetic; hence every record written with index
at least 3 has `acc == prev1` and `acc` equal to `2 * prev2` reduced to `int`. -/
theorem register_relation (n : Int) :
    (∀ k : Nat, (iter^[k + 1] (initRegs n)).prev1 = (iter^[k + 1] (initRegs n)).acc
      ∧ (body (iter^[k] (initRegs n))).prev1 = (body (iter^[k] (initRegs n))).acc)
    ∧ (∀ k : Nat, 3 ≤ (iter^[k] (initRegs n)).i →
      (body (iter^[k] (initRegs n))).prev2 = (iter^[k] (initRegs n)).acc
      ∧ (body (iter^[k] (initRegs n))).acc = wrap (2 * (iter^[k] (initRegs n)).acc))
    ∧ (INT_MIN ≤ n → n < INT_MAX →
      ∀ (fuel : Nat) (cout : List TraceLine), (n - 1).toNat < fuel →
      ∃ (r : Run) (lines : List TraceLine),
        fibonacci true fuel n cout = some r ∧ r.cout = cout ++ lines
        ∧ ∀ t ∈ lines, 3 ≤ t.i →
            t.acc = t.prev1 ∧ t.prev1 = wrap (2 * t.prev2)) := by
  have hstep : ∀ k : Nat, 3 ≤ (iter^[k] (initRegs n)).i →
      (body (iter^[k] (initRegs n))).prev2 = (iter^[k] (initRegs n)).acc
      ∧ (body (iter^[k] (initRegs n))).acc = wrap (2 * (iter^[k] (initRegs n)).acc) := by
    intro k hk
    obtain ⟨j, rfl⟩ := index_ge_three n k hk
    exact body_doubles _ (iterate_prev1_eq_acc (initRegs n) j)
  refine ⟨?_, hstep, ?_⟩
  · intro k
    exact ⟨iterate_prev1_eq_acc (initRegs n) k, body_prev1_eq_acc _⟩
  · intro _ hhi fuel cout hfuel
    obtain ⟨extra, rfl⟩ : ∃ extra, fuel = extra + (n - 1).toNat + 1 :=
      ⟨fuel - (n - 1).toNat - 1, by omega⟩
    refine ⟨_, traceFrom (initRegs n) (n - 1).toNat,
      fibonacci_returns true extra n cout hhi, by simp, ?_⟩
    intro t ht h3
    obtain ⟨k, _, rfl⟩ := traceFrom_mem _ _ t ht
    have hk : 3 ≤ (iter^[k] (initRegs n)).i := h3
    obtain ⟨hp2, hacc⟩ := hstep k hk
    constructor
    · exact (body_prev1_eq_acc _).symm
    · show (body (iter^[k] (initRegs n))).prev1
        = wrap (2 * (body (iter^[k] (initRegs n))).prev2)
      rw [body_prev1_eq_acc, hacc, hp2]

/-- Claim C14 at `n = 4`: the record written with index 3 is `(3, 2, 1, 2)` and the one
with index 4 is `(4, 4, 2, 4)`; both satisfy the relation. -/
theorem register_relation_witness :
    ∃ (r : Run) (lines : List TraceLine),
      fibonacci true 5 4 [] = some r ∧ r.cout = [] ++ lines
      ∧ ∀ t ∈ lines, 3 ≤ t.i → t.acc = t.prev1 ∧ t.prev1 = wrap (2 * t.prev2) :=
  (register_relation 4).2.2 (by decide) (by decide) 5 [] (by decide)

end SBuildr
